import Mathlib

/-!
Verification of the s2i builder (`pkg/builders/s2i/builder.go`).

The Go source is shallowly embedded below.  Paths and file contents are
modelled as `String` / `List Char`; the concrete regular expressions in the
source are embedded as abstract syntax trees over a small regex language with
the standard unanchored leftmost-search semantics of Go's `regexp` package.
Filesystem and network effects (image inspection, registry fetch, the build
strategy engine, the docker image-build call) are modelled as explicit
oracle values passed to the embedded functions, with a trace recording which
oracles were consulted.
-/

namespace S2I

/-! ## String helpers (over `List Char`) -/

/-- `w` occurs in `s` starting at index `i`. -/
def substrAtB (w s : List Char) (i : Nat) : Bool :=
  w.isPrefixOf (s.drop i)

/-- `w` occurs somewhere in `s` (substring test). -/
def containsB (w s : List Char) : Bool :=
  (List.range (s.length + 1)).any (substrAtB w s)

/-- `s` starts with `w`. -/
def startsWithB (w s : List Char) : Bool :=
  w.isPrefixOf s

/-- `s` ends with `w`. -/
def endsWithB (w s : List Char) : Bool :=
  w.isSuffixOf s

/-! ## A small regex language

Just enough to express the two concrete regular expressions of the source:
character literals, the `^` and `$` anchors, concatenation and alternation.
Matching follows Go's `regexp`: a pattern matches a string iff it matches
starting at some position (unanchored search); `^` matches only at the start
of the text and `$` only at its end. -/

inductive RE where
  | eps : RE
  | chr : Char → RE
  | lineStart : RE
  | lineEnd : RE
  | cat : RE → RE → RE
  | alt : RE → RE → RE

/-- Run `r` at absolute position `i` of the text, where `s` is the text's
suffix starting at `i`.  Returns the list of possible `(end position, rest)`
pairs. -/
def reRun : RE → Nat → List Char → List (Nat × List Char)
  | .eps, i, s => [(i, s)]
  | .chr _, _, [] => []
  | .chr c, i, x :: xs => if x = c then [(i + 1, xs)] else []
  | .lineStart, i, s => if i = 0 then [(i, s)] else []
  | .lineEnd, i, s => if s.isEmpty then [(i, s)] else []
  | .cat a b, i, s => (reRun a i s).flatMap (fun p => reRun b p.1 p.2)
  | .alt a b, i, s => reRun a i s ++ reRun b i s

/-- `r` matches the text `s` starting at position `i`. -/
def reMatchAt (r : RE) (s : List Char) (i : Nat) : Bool :=
  !(reRun r i (s.drop i)).isEmpty

/-- `r` matches somewhere in `s`: Go's `regexp.MatchString`. -/
def reMatches (r : RE) (s : List Char) : Bool :=
  (List.range (s.length + 1)).any (reMatchAt r s)

/-- A sequence of character literals. -/
def strRE (w : List Char) : RE :=
  w.foldr (fun c r => .cat (.chr c) r) .eps

/-! ## The exclusion pattern

Source, line 217:
`cfg.ExcludeRegExp = "(^|/)\\.git|\\.env|\\.func|node_modules(/|$)"`,
i.e. the regex `(^|/)\.git|\.env|\.func|node_modules(/|$)` — an alternation
of four branches (alternation binds loosest). -/

def excludeRE : RE :=
  .alt (.cat (.alt .lineStart (.chr '/')) (strRE ".git".data))
    (.alt (strRE ".env".data)
      (.alt (strRE ".func".data)
        (.cat (strRE "node_modules".data) (.alt (.chr '/') .lineEnd))))

/-- `exclude.MatchString p` from the source's archive walk. -/
def excludeMatch (s : String) : Bool :=
  reMatches excludeRE s.data

/-! ## Path model for the archive walk

Paths are modelled as lists of segments.  The walk root `tmp` (the temporary
build directory) is an absolute path given by its segments; each visited
entry carries its path relative to `tmp` as segments (`[]` for the root
entry itself, for which `filepath.Rel(tmp, tmp) = "."`). -/

/-- Join path segments with `/` — the slash-normalized relative path
(`filepath.ToSlash` of the `filepath.Rel` result; on the modelled host the
path separator is `/`). -/
def joinSlash : List String → String
  | [] => ""
  | [x] => x
  | x :: y :: xs => x ++ "/" ++ joinSlash (y :: xs)

/-- Stack-based lexical cleaning of an absolute path's segments, as
`filepath.Clean` does inside `filepath.Rel`: drops empty and `.` segments,
and a `..` pops the previous segment (or is dropped at the root). -/
def cleanAbsAux (acc : List String) : List String → List String
  | [] => acc.reverse
  | seg :: rest =>
    if seg = "" ∨ seg = "." then cleanAbsAux acc rest
    else if seg = ".." then cleanAbsAux acc.tail rest
    else cleanAbsAux (seg :: acc) rest

/-- Clean the segments of an absolute path. -/
def cleanAbs (segs : List String) : List String :=
  cleanAbsAux [] segs

/-- Length of the longest common segment run. -/
def commonLen : List String → List String → Nat
  | x :: xs, y :: ys => if x = y then commonLen xs ys + 1 else 0
  | _, _ => 0

/-- `filepath.Rel(base, targ)` for two absolute paths (both cleaned first,
as Go does): as many `..` segments as `base` has segments beyond the common
run, then the remainder of `targ`; the empty result is `"."`.  For two
absolute paths this never fails. -/
def relAbs (base targ : List String) : String :=
  let b := cleanAbs base
  let t := cleanAbs targ
  let n := commonLen b t
  let rest := List.replicate (b.length - n) ".." ++ t.drop n
  if rest.isEmpty then "." else joinSlash rest

/-- A symbolic link's stored target: Go's `os.Readlink` result, which the
walk treats differently depending on `filepath.IsAbs`.  An absolute target
is carried as its segments (so that `filepath.Rel(tmp, lnk)` is computable);
a relative target is carried verbatim. -/
inductive SymTarget where
  | rel : String → SymTarget
  | abs : List String → SymTarget
deriving DecidableEq

/-- The file type of a visited entry, as far as the walk callback inspects
it (`fi.Mode()&fs.ModeSymlink` and `fi.Mode().IsRegular()`). -/
inductive EntryType where
  | dir
  | regular
  | symlink : SymTarget → EntryType
deriving DecidableEq

/-- One entry visited by `filepath.Walk` over the build directory. -/
structure WalkEntry where
  relSegs : List String
  etype : EntryType
deriving DecidableEq

/-- A tar header as far as the claims are concerned: its name (the
slash-normalized relative path) and its link target. -/
structure Header where
  name : String
  linkname : String
deriving DecidableEq

/-- The link-target handling of the walk callback (source lines 294–309):
the escape check `strings.HasPrefix(lnk, up) || lnk == ".."` (with
`up = ".." + PathSeparator = "../"`) is reached only in the
`filepath.IsAbs(lnk)` branch; a relative stored target is used verbatim;
non-symlinks get an empty link name (`tar.FileInfoHeader(fi, "")`). -/
def entryLink (tmp : List String) (p : String) : EntryType → Except String String
  | .symlink (.rel t) => .ok t
  | .symlink (.abs segs) =>
    if startsWithB "../".data (relAbs tmp segs).data || relAbs tmp segs = ".." then
      .error ("link \"" ++ p ++ "\" points outside source root")
    else .ok (relAbs tmp segs)
  | _ => .ok ""

/-- One iteration of the walk callback (source lines 275–341).  Returns
`none` for skipped entries (the root, excluded paths), a header for emitted
entries, and an error exactly where the Go callback returns a non-nil
error. -/
def processEntry (tmp : List String) (e : WalkEntry) : Except String (Option Header) :=
  let p := if e.relSegs.isEmpty then "." else joinSlash e.relSegs
  if p = "." then .ok none
  else if excludeMatch p then .ok none
  else
    match entryLink tmp p e.etype with
    | .error msg => .error msg
    | .ok lnk => .ok (some ⟨p, lnk⟩)

/-- The archive-producing task (lines 273–344): visits the entries in walk
order; the first callback error aborts the walk, and that error is handed to
`pw.CloseWithError`, so the consumer reading the archive stream observes it
as its read error (`none` = clean EOF).  Result: emitted headers, and the
error observed by the consumer. -/
def walk (tmp : List String) : List WalkEntry → List Header × Option String
  | [] => ([], none)
  | e :: es =>
    match processEntry tmp e with
    | .error msg => ([], some msg)
    | .ok none => walk tmp es
    | .ok (some h) =>
      let r := walk tmp es
      (h :: r.1, r.2)

/-! ## Default builder images (source lines 44–60) -/

def DefaultNodeBuilder : String := "registry.access.redhat.com/ubi8/nodejs-20-minimal"

def DefaultQuarkusBuilder : String := "registry.access.redhat.com/ubi8/openjdk-21"

def DefaultPythonBuilder : String := "registry.access.redhat.com/ubi8/python-39"

def DefaultGoBuilder : String := "registry.final.tools/mirror/ubi8-go-toolset"

/-- `DefaultBuilderImages` for s2i builders indexed by runtime language.
The Go map is modelled as an association list (its key set is what
matters; lookups go through `assocFind`). -/
def DefaultBuilderImages : List (String × String) :=
  [("go", DefaultGoBuilder),
   ("node", DefaultNodeBuilder),
   ("nodejs", DefaultNodeBuilder),
   ("python", DefaultPythonBuilder),
   ("quarkus", DefaultQuarkusBuilder),
   ("typescript", DefaultNodeBuilder)]

/-- Go map lookup on an association list. -/
def assocFind (k : String) : List (String × String) → Option String
  | [] => none
  | (k2, v) :: rest => if k = k2 then some v else assocFind k rest

/-- The registry host of an image reference: the part before the first
slash. -/
def registryOf (image : String) : String :=
  ⟨image.data.takeWhile (fun c => c ≠ '/')⟩

/-- The function under build, as far as this builder consults it. -/
structure Func where
  root : String
  runtime : String
  builderImageOverride : Option String
  image : String
deriving DecidableEq

/-- Modelled from the spec: `builders.Image` (package `pkg/builders`) is not
under `src/`; per spec §4.1, “If the caller supplied an explicit builder
image, it is used verbatim; otherwise resolved from a static mapping keyed
by runtime identifier.”  A runtime absent from the mapping cannot be
resolved and is an error. -/
def buildersImage (f : Func) (defaults : List (String × String)) : Except String String :=
  match f.builderImageOverride with
  | some img => .ok img
  | none =>
    match assocFind f.runtime defaults with
    | some img => .ok img
    | none => .error ("no default builder image for runtime " ++ f.runtime)

/-- `BuilderImage` (source lines 438–442): delegates with this builder's
default image map. -/
def BuilderImage (f : Func) : Except String String :=
  buildersImage f DefaultBuilderImages

/-! ## Build configuration (source lines 179–217) -/

/-- The fields of the engine's `api.Config` that the claims mention.  The
config literal at lines 179–192 does not set `ScriptsURL`, so it holds Go's
zero value for a string, `""`. -/
structure Config where
  tag : String
  builderImage : String
  scriptsURL : String
  excludeRegExp : String
deriving DecidableEq

/-- Lines 179–192 (claim-relevant fields) together with the exclusion
pattern assignment of line 217. -/
def mkConfig (f : Func) (builderImage : String) : Config :=
  { tag := f.image
    builderImage := builderImage
    scriptsURL := ""
    excludeRegExp := "(^|/)\\.git|\\.env|\\.func|node_modules(/|$)" }

/-- Lines 201–210: after `s2iScriptURL` succeeds with `scriptURL`, the
override is assigned exactly when the discovered URL differs from the
engine's built-in default sentinel `image:///usr/libexec/s2i`. -/
def applyScriptsURL (cfg : Config) (scriptURL : String) : Config :=
  if scriptURL ≠ "image:///usr/libexec/s2i" then { cfg with scriptsURL := scriptURL }
  else cfg

/-! ## Script-URL discovery (`s2iScriptURL`, source lines 387–436) -/

/-- The label key consulted under both schemas. -/
def scriptsURLLabel : String := "io.openshift.s2i.scripts-url"

/-- Outcome of `cli.ImageInspectWithRaw`: `found` carries
`img.Config.Labels` and `img.ContainerConfig.Labels` (either may be nil =
`none`); `notFound` is the case `dockerClient.IsErrNotFound(err)`;
`errOther` any other inspection error. -/
inductive InspectResult where
  | found : Option (List (String × String)) → Option (List (String × String)) → InspectResult
  | notFound : InspectResult
  | errOther : String → InspectResult
deriving DecidableEq

/-- The registry-side oracles of the fallback path: `name.ParseReference`
(returning whether the reference is tag-based), `remote.Image`, and
`img.ConfigFile` (carrying `cfg.Config.Labels`). -/
structure RegistryWorld where
  parse : Except String Bool
  fetch : Except String Unit
  config : Except String (Option (List (String × String)))

/-- The distinct error exits of `s2iScriptURL`, each wrapping the underlying
error as the source's `fmt.Errorf` calls do. -/
inductive ScriptURLErr where
  | parseErr : String → ScriptURLErr
  | remoteErr : String → ScriptURLErr
  | configErr : String → ScriptURLErr
  | inspectErr : String → ScriptURLErr
deriving DecidableEq

/-- Lines 422–435: label precedence when the image is found locally — the
current `Config` schema first, then the legacy `ContainerConfig` schema;
absence everywhere is `("", nil)`. -/
def localLabelLookup (cfgLabels containerLabels : Option (List (String × String))) :
    Except ScriptURLErr String :=
  match cfgLabels with
  | some ls =>
    match assocFind scriptsURLLabel ls with
    | some u => .ok u
    | none =>
      match containerLabels with
      | some ls2 =>
        match assocFind scriptsURLLabel ls2 with
        | some u => .ok u
        | none => .ok ""
      | none => .ok ""
  | none =>
    match containerLabels with
    | some ls2 =>
      match assocFind scriptsURLLabel ls2 with
      | some u => .ok u
      | none => .ok ""
    | none => .ok ""

/-- `s2iScriptURL` (lines 387–436).  `inspect` is the local daemon
inspection outcome; `reg` holds the registry oracles, consulted only in the
not-found fallback.  The tag-discouragement warning (lines 401–403) is
diagnostic output only and does not affect the result.  In the not-found
branch, absence of the label after a successful config fetch falls through
to `return "", err` with `err == nil`, i.e. `.ok ""`. -/
def s2iScriptURL (inspect : InspectResult) (reg : RegistryWorld) : Except ScriptURLErr String :=
  match inspect with
  | .errOther e => .error (.inspectErr e)
  | .notFound =>
    match reg.parse with
    | .error e => .error (.parseErr e)
    | .ok _ =>
      match reg.fetch with
      | .error e => .error (.remoteErr e)
      | .ok _ =>
        match reg.config with
        | .error e => .error (.configErr e)
        | .ok labels =>
          match labels with
          | some ls =>
            match assocFind scriptsURLLabel ls with
            | some u => .ok u
            | none => .ok ""
          | none => .ok ""
  | .found cfgLabels containerLabels => localLabelLookup cfgLabels containerLabels

/-! ## The Build pipeline (source lines 124–371) -/

/-- One requested target platform. -/
structure Platform where
  os : String
  architecture : String
deriving DecidableEq

/-- `strings.ToLower` (platform strings are ASCII, where `Char.toLower`
agrees with Go). -/
def lowerStr (s : String) : String :=
  ⟨s.data.map Char.toLower⟩

/-- The external effects `Build` can invoke, as oracle outcomes:
`docker.GetPlatformImage` (line 138); everything between platform
validation and the engine call — client creation, the ignore bridge, the
temp dir, config assembly, scaffolding, script-URL discovery, env
interpolation, validation (lines 146–245) — collapsed into `prep`; the
engine's `impl.Build` (line 248); and the image-build submission plus
progress relay (lines 346–370). -/
structure BuildWorld where
  getPlatformImage : String → String → Except String String
  prep : Except String Unit
  engine : Except String Unit
  imageBuild : Except String Unit

/-- Which of the external stages were invoked. -/
structure Trace where
  platformImageCalled : Bool
  engineCalled : Bool
  imageBuildCalled : Bool
deriving DecidableEq

/-- No external stage invoked yet. -/
def noCalls : Trace := ⟨false, false, false⟩

/-- The fixed error of lines 141–144. -/
def singlePlatformErr : String :=
  "the S2I builder currently only supports specifying a single target platform"

/-- The pipeline after platform validation succeeded (lines 146–370),
threading the call trace. -/
def buildRest (w : BuildWorld) (t : Trace) : Except String Unit × Trace :=
  match w.prep with
  | .error e => (.error e, t)
  | .ok _ =>
    match w.engine with
    | .error e => (.error e, { t with engineCalled := true })
    | .ok _ =>
      match w.imageBuild with
      | .error e => (.error ("cannot build the app image: " ++ e),
          { t with engineCalled := true, imageBuildCalled := true })
      | .ok _ => (.ok (), { t with engineCalled := true, imageBuildCalled := true })

/-- `Builder.Build` (lines 124–371) to the depth the claims require: builder
image resolution (line 127), platform validation (lines 133–144), then the
rest of the pipeline. -/
def Build (w : BuildWorld) (f : Func) (platforms : List Platform) : Except String Unit × Trace :=
  match BuilderImage f with
  | .error e => (.error e, noCalls)
  | .ok img =>
    match platforms with
    | [] => buildRest w noCalls
    | [p] =>
      let plat := lowerStr (p.os ++ "/" ++ p.architecture)
      match w.getPlatformImage img plat with
      | .error e =>
        (.error ("cannot get platform image reference for \"" ++ plat ++ "\": " ++ e),
          { noCalls with platformImageCalled := true })
      | .ok _ => buildRest w { noCalls with platformImageCalled := true }
    | _ :: _ :: _ => (.error singlePlatformErr, noCalls)

/-! ## SHA-1 (`crypto/sha1`), bytes as `Nat` below 256 -/

/-- Rotate a 32-bit word left by `n`. -/
def rotl32 (n x : Nat) : Nat :=
  ((x <<< n) % 4294967296) ||| (x >>> (32 - n))

/-- Big-endian 8-byte encoding of the 64-bit value `n`. -/
def beBytes8 (n : Nat) : List Nat :=
  [(n >>> 56) % 256, (n >>> 48) % 256, (n >>> 40) % 256, (n >>> 32) % 256,
   (n >>> 24) % 256, (n >>> 16) % 256, (n >>> 8) % 256, n % 256]

/-- SHA-1 padding: `0x80`, zeros to 56 mod 64, then the bit length. -/
def sha1Pad (msg : List Nat) : List Nat :=
  msg ++ [128] ++ List.replicate ((64 - ((msg.length + 9) % 64)) % 64) 0
    ++ beBytes8 (msg.length * 8)

/-- Group bytes into big-endian 32-bit words. -/
def toWords : List Nat → List Nat
  | a :: b :: c :: d :: rest => (((a * 256 + b) * 256 + c) * 256 + d) :: toWords rest
  | _ => []

/-- Message-schedule extension: with `acc` holding the words produced so far
in reverse, add `k` more words `w.i = rotl1 (w.i3 xor w.i8 xor w.i14 xor
w.i16)`. -/
def sha1ExtendAux : Nat → List Nat → List Nat
  | 0, acc => acc.reverse
  | k + 1, acc =>
    let w := rotl32 1 ((acc.getD 2 0) ^^^ (acc.getD 7 0) ^^^ (acc.getD 13 0) ^^^ (acc.getD 15 0))
    sha1ExtendAux k (w :: acc)

/-- One of the 80 compression rounds. -/
def sha1Round (i : Nat) (st : Nat × Nat × Nat × Nat × Nat) (w : Nat) :
    Nat × Nat × Nat × Nat × Nat :=
  match st with
  | (a, b, c, d, e) =>
    let fk : Nat × Nat :=
      if i < 20 then ((b &&& c) ||| ((b ^^^ 4294967295) &&& d), 1518500249)
      else if i < 40 then (b ^^^ c ^^^ d, 1859775393)
      else if i < 60 then ((b &&& c) ||| (b &&& d) ||| (c &&& d), 2400959708)
      else (b ^^^ c ^^^ d, 3395469782)
    ((rotl32 5 a + fk.1 + e + fk.2 + w) % 4294967296, a, rotl32 30 b, c, d)

/-- Compress one 16-word block into the running state. -/
def sha1ProcessBlock (h : Nat × Nat × Nat × Nat × Nat) (block : List Nat) :
    Nat × Nat × Nat × Nat × Nat :=
  let ws := sha1ExtendAux 64 block.reverse
  match h, ws.enum.foldl (fun st p => sha1Round p.1 st p.2) h with
  | (h0, h1, h2, h3, h4), (a, b, c, d, e) =>
    ((h0 + a) % 4294967296, (h1 + b) % 4294967296, (h2 + c) % 4294967296,
      (h3 + d) % 4294967296, (h4 + e) % 4294967296)

/-- Fold the compression over the 16-word blocks, with explicit fuel (each
step consumes 16 words, so the word count bounds the iterations; structural
recursion keeps the definition kernel-reducible). -/
def sha1ChunksAux : Nat → (Nat × Nat × Nat × Nat × Nat) → List Nat → Nat × Nat × Nat × Nat × Nat
  | 0, h, _ => h
  | _ + 1, h, [] => h
  | fuel + 1, h, w :: rest =>
    sha1ChunksAux fuel (sha1ProcessBlock h ((w :: rest).take 16)) ((w :: rest).drop 16)

/-- Fold the compression over all 16-word blocks. -/
def sha1Chunks (h : Nat × Nat × Nat × Nat × Nat) (ws : List Nat) : Nat × Nat × Nat × Nat × Nat :=
  sha1ChunksAux ws.length h ws

/-- Big-endian bytes of a 32-bit word. -/
def wordBytes (w : Nat) : List Nat :=
  [(w >>> 24) % 256, (w >>> 16) % 256, (w >>> 8) % 256, w % 256]

/-- `sha1.Sum`: the 20-byte SHA-1 digest. -/
def sha1 (msg : List Nat) : List Nat :=
  match sha1Chunks (1732584193, 4023233417, 2562383102, 271733878, 3285377520)
      (toWords (sha1Pad msg)) with
  | (a, b, c, d, e) => wordBytes a ++ wordBytes b ++ wordBytes c ++ wordBytes d ++ wordBytes e

/-- Lower-case hex digit. -/
def hexDigit (n : Nat) : Char :=
  if n < 10 then Char.ofNat (48 + n) else Char.ofNat (87 + n)

/-- `hex.EncodeToString`: lower-case hex, two digits per byte. -/
def hexEncode (bs : List Nat) : String :=
  ⟨bs.flatMap (fun b => [hexDigit (b / 16), hexDigit (b % 16)])⟩

/-- UTF-8 encoding of one code point (Go's `[]byte(string)` view). -/
def utf8Char (c : Char) : List Nat :=
  let n := c.toNat
  if n < 128 then [n]
  else if n < 2048 then [192 + n / 64, 128 + n % 64]
  else if n < 65536 then [224 + n / 4096, 128 + (n / 64) % 64, 128 + n % 64]
  else [240 + n / 262144, 128 + (n / 4096) % 64, 128 + (n / 64) % 64, 128 + n % 64]

/-- The bytes of a Go string. -/
def utf8Bytes (s : String) : List Nat :=
  s.data.flatMap utf8Char

/-- Lines 379–380: the cache-mount identifier — the hex encoding of the
first 8 bytes of the SHA-1 digest of the function's root path. -/
def cacheId (root : String) : String :=
  hexEncode ((sha1 (utf8Bytes root)).take 8)

/-! ## The Cache-Mount Patcher (`patchDockerfile`, source lines 373–385)

The Go code applies `regexp.MustCompile("RUN (.*assemble)")
.ReplaceAllString` to the whole file contents.  `.` does not match `\n` and
the pattern contains no newline, so every match lies within a single line;
the file-level substitution therefore equals the per-line substitution
mapped over the lines.  Go's regexp finds the leftmost match; the greedy
`.*` extends the capture to the last `assemble` in the line; replacement
continues after the end of the match. -/

/-- End position (exclusive) of the last occurrence of `w` in `s`: the
greedy extent of `.*<w>`. -/
def lastEndOf (w s : List Char) : Option Nat :=
  ((List.range (s.length + 1)).filterMap
    (fun i => if substrAtB w s i then some (i + w.length) else none)).getLast?

/-- Leftmost start of a `RUN (.*assemble)` match in a newline-free line: the
first `i` where `"RUN "` occurs and `"assemble"` occurs in the rest of the
line. -/
def runMatchStart (line : List Char) : Option Nat :=
  (List.range (line.length + 1)).find?
    (fun i => substrAtB "RUN ".data line i && containsB "assemble".data (line.drop (i + 4)))

/-- The replacement `"RUN %s \\\n    $1"` with `$1` bound to `cap`. -/
def replacementFor (mountCmd : String) (cap : List Char) : List Char :=
  "RUN ".data ++ mountCmd.data ++ " \\\n    ".data ++ cap

/-- `ReplaceAllString` within one line, with explicit fuel (each iteration
consumes at least one character, so `line.length + 1` suffices). -/
def patchLineAux (mountCmd : String) : Nat → List Char → List Char
  | 0, line => line
  | fuel + 1, line =>
    match runMatchStart line with
    | none => line
    | some i =>
      match lastEndOf "assemble".data (line.drop (i + 4)) with
      | none => line
      | some e =>
        line.take i ++ replacementFor mountCmd ((line.drop (i + 4)).take e)
          ++ patchLineAux mountCmd fuel (line.drop (i + 4 + e))

/-- `ReplaceAllString` of `RUN (.*assemble)` within one line. -/
def patchLine (mountCmd : String) (line : List Char) : List Char :=
  patchLineAux mountCmd (line.length + 1) line

/-- Split file contents on `'\n'`. -/
def splitLinesAux (cur : List Char) : List Char → List (List Char)
  | [] => [cur.reverse]
  | c :: rest =>
    if c = '\n' then cur.reverse :: splitLinesAux [] rest
    else splitLinesAux (c :: cur) rest

/-- The lines of file contents. -/
def splitLines (s : List Char) : List (List Char) :=
  splitLinesAux [] s

/-- Rejoin lines with `'\n'`. -/
def joinLines : List (List Char) → List Char
  | [] => []
  | [l] => l
  | l :: l2 :: ls => l ++ '\n' :: joinLines (l2 :: ls)

/-- Line 380: the injected cache-mount directive for a given source root. -/
def mountCmdFor (root : String) : String :=
  "--mount=type=cache,target=/tmp/artifacts/,uid=1001,id=" ++ cacheId root

/-- `patchDockerfile` on the file contents (the real function reads `path`,
rewrites, and writes back; the rewrite itself is modelled). -/
def patchDockerfile (root : String) (content : List Char) : List Char :=
  joinLines ((splitLines content).map (patchLine (mountCmdFor root)))

/-! ## The Ignore-File Bridge (source lines 157–169) -/

/-- Whether the two ignore files exist in the function root. -/
structure IgnoreFS where
  funcignore : Bool
  s2iignore : Bool
deriving DecidableEq

/-- How one build execution exits. -/
inductive BuildOutcome where
  | success : BuildOutcome
  | engineFailure : BuildOutcome
  | panicked : BuildOutcome
deriving DecidableEq

/-- Result of one bridge-scoped build: whether the precedence warning was
printed, whether the symlink was created, the filesystem while the build
runs, and the filesystem after the build exits. -/
structure BridgeRun where
  warned : Bool
  linked : Bool
  duringBuild : IgnoreFS
  after : IgnoreFS
deriving DecidableEq

/-- The Ignore-File Bridge for one build exiting via `outcome`: if
`.funcignore` exists and `.s2iignore` does not, the symlink is created and
`defer os.Remove(s2iignorePath)` is registered; Go runs deferred calls on
every exit path — normal return, error return, and panic — so the removal
happens regardless of `outcome`.  If both exist, only the precedence
warning is printed. -/
def ignoreBridge (fs : IgnoreFS) (outcome : BuildOutcome) : BridgeRun :=
  match outcome with
  | _ =>
    if fs.funcignore then
      if fs.s2iignore then ⟨true, false, fs, fs⟩
      else ⟨false, true, { fs with s2iignore := true }, { fs with s2iignore := false }⟩
    else ⟨false, false, fs, fs⟩

/-! ## Characterization of the exclusion pattern -/

theorem reRun_strRE (w : List Char) (i : Nat) (s : List Char) :
    reRun (strRE w) i s =
      if w <+: s then [(i + w.length, s.drop w.length)] else [] := by
  induction w generalizing i s with
  | nil =>
    simp [strRE, reRun]
  | cons c w ih =>
    cases s with
    | nil =>
      have h : ¬(c :: w <+: ([] : List Char)) := by simp
      simp only [strRE, List.foldr_cons]
      simp [reRun, h]
    | cons x xs =>
      show reRun (.cat (.chr c) (strRE w)) i (x :: xs) = _
      by_cases h : x = c
      · have hstep : reRun (.cat (.chr c) (strRE w)) i (x :: xs)
            = reRun (strRE w) (i + 1) xs := by
          simp [reRun, h]
        rw [hstep, ih]
        have hpre : (c :: w <+: x :: xs) ↔ (w <+: xs) := by
          rw [List.cons_prefix_cons]
          simp [h.symm]
        by_cases h2 : w <+: xs
        · rw [if_pos h2, if_pos (hpre.mpr h2)]
          simp [List.length_cons, List.drop_succ_cons]
          omega
        · rw [if_neg h2, if_neg (fun hc => h2 (hpre.mp hc))]
      · have hne : ¬(c :: w <+: x :: xs) :=
          fun hc => h ((List.cons_prefix_cons.mp hc).1.symm)
        simp only [reRun, if_neg h, List.flatMap_nil, if_neg hne]

theorem reMatchAt_strRE_iff (w s : List Char) (i : Nat) :
    reMatchAt (strRE w) s i = true ↔ w <+: s.drop i := by
  rw [reMatchAt, reRun_strRE]
  by_cases h : w <+: s.drop i <;> simp [h]

theorem reMatchAt_alt_iff (a b : RE) (s : List Char) (i : Nat) :
    reMatchAt (.alt a b) s i = true ↔
      (reMatchAt a s i = true ∨ reMatchAt b s i = true) := by
  simp only [reMatchAt, reRun]
  cases h1 : reRun a i (s.drop i) <;> cases h2 : reRun b i (s.drop i) <;>
    simp [h1, h2]

/-- `['c'] <+: t` iff `t` begins with `c`. -/
theorem singleton_prefix_iff (c : Char) (t : List Char) :
    [c] <+: t ↔ ∃ ys, t = c :: ys := by
  cases t with
  | nil => simp
  | cons y ys =>
    rw [List.cons_prefix_cons]
    constructor
    · rintro ⟨rfl, -⟩; exact ⟨ys, rfl⟩
    · rintro ⟨zs, hz⟩
      cases hz
      exact ⟨rfl, List.nil_prefix⟩

/-- The branch `(^|/)<w>`: matches at `i` iff `i = 0` and the text starts
with `w`, or `'/' :: w` occurs at position `i`. -/
theorem reMatchAt_anchorSlash_iff (w s : List Char) (i : Nat) :
    reMatchAt (.cat (.alt .lineStart (.chr '/')) (strRE w)) s i = true ↔
      ((i = 0 ∧ w <+: s) ∨ ('/' :: w) <+: s.drop i) := by
  simp only [reMatchAt, reRun, List.flatMap_append]
  by_cases h0 : i = 0
  · subst h0
    simp only [if_pos rfl, List.drop_zero, List.flatMap_cons, List.flatMap_nil,
      List.append_nil, reRun_strRE]
    cases s with
    | nil =>
      by_cases hw : w <+: ([] : List Char) <;>
        simp [hw, reRun, fun hc => (by simp : ¬('/' :: w <+: ([] : List Char))) hc]
    | cons x xs =>
      by_cases hx : x = '/'
      · subst hx
        by_cases hw : w <+: '/' :: xs <;> by_cases hw2 : w <+: xs <;>
          simp [hw, hw2, reRun, reRun_strRE, List.cons_prefix_cons]
      · have hne : ¬('/' :: w <+: x :: xs) :=
          fun hc => hx ((List.cons_prefix_cons.mp hc).1.symm)
        by_cases hw : w <+: x :: xs <;>
          simp [hw, hne, reRun, reRun_strRE, if_neg hx]
  · simp only [if_neg h0, List.nil_append, reRun_strRE]
    cases hdrop : s.drop i with
    | nil =>
      simp [reRun, h0]
    | cons x xs =>
      by_cases hx : x = '/'
      · subst hx
        by_cases hw2 : w <+: xs <;>
          simp [hw2, reRun, reRun_strRE, h0, List.cons_prefix_cons]
      · have hne : ¬('/' :: w <+: x :: xs) :=
          fun hc => hx ((List.cons_prefix_cons.mp hc).1.symm)
        simp [reRun, if_neg hx, h0, hne]

/-- The branch `<w>(/|$)`: matches at `i` iff `w ++ "/"` occurs at position
`i`, or `w` occurs at position `i` and reaches the end of the text. -/
theorem reMatchAt_tailSlashEnd_iff (w s : List Char) (i : Nat) :
    reMatchAt (.cat (strRE w) (.alt (.chr '/') .lineEnd)) s i = true ↔
      ((w ++ ['/']) <+: s.drop i ∨
        (w <+: s.drop i ∧ s.length ≤ i + w.length)) := by
  simp only [reMatchAt, reRun, reRun_strRE]
  by_cases hw : w <+: s.drop i
  · obtain ⟨t, ht⟩ := hw
    have hw' : w <+: s.drop i := ⟨t, ht⟩
    simp only [if_pos hw', List.flatMap_cons, List.flatMap_nil, List.append_nil]
    have hdt : (s.drop i).drop w.length = t := by
      rw [← ht, List.drop_left]
    have happ : (w ++ ['/']) <+: s.drop i ↔ ['/'] <+: t := by
      rw [← ht, List.prefix_append_right_inj]
    have hlen : s.length ≤ i + w.length ↔ t = [] := by
      constructor
      · intro hle
        have hlth := congrArg List.length ht
        simp only [List.length_append, List.length_drop] at hlth
        have : t.length = 0 := by omega
        exact List.length_eq_zero.mp this
      · intro ht0
        have h1 : (s.drop i).length = w.length := by rw [← ht, ht0]; simp
        have h2 : (s.drop i).length = s.length - i := List.length_drop i s
        omega
    rw [happ, hlen]
    cases t with
    | nil => simp [hdt, reRun, hw']
    | cons y ys =>
      by_cases hy : y = '/'
      · subst hy
        simp [hdt, reRun, singleton_prefix_iff]
      · have hne : ¬(['/'] <+: y :: ys) := by
          rw [singleton_prefix_iff]
          rintro ⟨zs, hz⟩
          cases hz
          exact hy rfl
        simp [hdt, reRun, if_neg hy, hne]
  · have hne : ¬((w ++ ['/']) <+: s.drop i) :=
      fun hc => hw ((List.prefix_append w ['/']).trans hc)
    simp [hw, hne]

theorem substrAtB_iff (w s : List Char) (i : Nat) :
    substrAtB w s i = true ↔ w <+: s.drop i := by
  rw [substrAtB, List.isPrefixOf_iff_prefix]

theorem containsB_iff (w s : List Char) :
    containsB w s = true ↔ ∃ i, i ≤ s.length ∧ w <+: s.drop i := by
  rw [containsB, List.any_eq_true]
  constructor
  · rintro ⟨i, hi, h⟩
    rw [List.mem_range] at hi
    exact ⟨i, by omega, (substrAtB_iff w s i).mp h⟩
  · rintro ⟨i, hi, h⟩
    exact ⟨i, List.mem_range.mpr (by omega), (substrAtB_iff w s i).mpr h⟩

theorem startsWithB_iff (w s : List Char) :
    startsWithB w s = true ↔ w <+: s := by
  rw [startsWithB, List.isPrefixOf_iff_prefix]

theorem endsWithB_iff (w s : List Char) :
    endsWithB w s = true ↔ w <:+ s := by
  rw [endsWithB, List.isSuffixOf_iff_suffix]


/-- Full characterization of the exclusion pattern: it matches a path iff
`.git` occurs at the start or right after a slash, `.env` occurs anywhere,
`.func` occurs anywhere, or `node_modules` occurs right before a slash or at
the very end.  Only `.git` is anchored at a segment *start* and only
`node_modules` at a segment *end*; `.env` and `.func` are bare substring
tests. -/
theorem excludeMatch_characterization (s : String) :
    excludeMatch s = true ↔
      (startsWithB ".git".data s.data = true ∨
        containsB "/.git".data s.data = true ∨
        containsB ".env".data s.data = true ∨
        containsB ".func".data s.data = true ∨
        containsB "node_modules/".data s.data = true ∨
        endsWithB "node_modules".data s.data = true) := by
  rw [excludeMatch, reMatches, List.any_eq_true]
  constructor
  · rintro ⟨i, hi, h⟩
    rw [List.mem_range] at hi
    rw [excludeRE] at h
    rw [reMatchAt_alt_iff] at h
    rcases h with h | h
    · rw [reMatchAt_anchorSlash_iff] at h
      rcases h with ⟨rfl, h⟩ | h
      · exact Or.inl ((startsWithB_iff _ _).mpr h)
      · exact Or.inr (Or.inl ((containsB_iff _ _).mpr ⟨i, by omega, h⟩))
    · rw [reMatchAt_alt_iff] at h
      rcases h with h | h
      · rw [reMatchAt_strRE_iff] at h
        exact Or.inr (Or.inr (Or.inl ((containsB_iff _ _).mpr ⟨i, by omega, h⟩)))
      · rw [reMatchAt_alt_iff] at h
        rcases h with h | h
        · rw [reMatchAt_strRE_iff] at h
          exact Or.inr (Or.inr (Or.inr (Or.inl ((containsB_iff _ _).mpr ⟨i, by omega, h⟩))))
        · rw [reMatchAt_tailSlashEnd_iff] at h
          rcases h with h | ⟨h, hlen⟩
          · exact Or.inr (Or.inr (Or.inr (Or.inr (Or.inl
              ((containsB_iff _ _).mpr ⟨i, by omega, h⟩)))))
          · refine Or.inr (Or.inr (Or.inr (Or.inr (Or.inr
              ((endsWithB_iff _ _).mpr ?_)))))
            have hlen2 : (s.data.drop i).length = s.data.length - i :=
              List.length_drop i s.data
            have hwl := h.length_le
            rw [hlen2] at hwl
            have heq : "node_modules".data = s.data.drop i :=
              h.eq_of_length (by rw [List.length_drop]; omega)
            exact heq ▸ List.drop_suffix i s.data
  · intro h
    rcases h with h | h | h | h | h | h
    · rw [startsWithB_iff] at h
      refine ⟨0, List.mem_range.mpr (by omega), ?_⟩
      rw [excludeRE, reMatchAt_alt_iff]
      exact Or.inl ((reMatchAt_anchorSlash_iff _ _ _).mpr (Or.inl ⟨rfl, h⟩))
    · rw [containsB_iff] at h
      obtain ⟨i, hi, h⟩ := h
      refine ⟨i, List.mem_range.mpr (by omega), ?_⟩
      rw [excludeRE, reMatchAt_alt_iff]
      exact Or.inl ((reMatchAt_anchorSlash_iff _ _ _).mpr (Or.inr h))
    · rw [containsB_iff] at h
      obtain ⟨i, hi, h⟩ := h
      refine ⟨i, List.mem_range.mpr (by omega), ?_⟩
      rw [excludeRE, reMatchAt_alt_iff, reMatchAt_alt_iff]
      exact Or.inr (Or.inl ((reMatchAt_strRE_iff _ _ _).mpr h))
    · rw [containsB_iff] at h
      obtain ⟨i, hi, h⟩ := h
      refine ⟨i, List.mem_range.mpr (by omega), ?_⟩
      rw [excludeRE, reMatchAt_alt_iff, reMatchAt_alt_iff, reMatchAt_alt_iff]
      exact Or.inr (Or.inr (Or.inl ((reMatchAt_strRE_iff _ _ _).mpr h)))
    · rw [containsB_iff] at h
      obtain ⟨i, hi, h⟩ := h
      refine ⟨i, List.mem_range.mpr (by omega), ?_⟩
      rw [excludeRE, reMatchAt_alt_iff, reMatchAt_alt_iff, reMatchAt_alt_iff]
      exact Or.inr (Or.inr (Or.inr ((reMatchAt_tailSlashEnd_iff _ _ _).mpr (Or.inl h))))
    · rw [endsWithB_iff] at h
      obtain ⟨t, ht⟩ := h
      have hlt := congrArg List.length ht
      rw [List.length_append] at hlt
      refine ⟨t.length, List.mem_range.mpr (by omega), ?_⟩
      rw [excludeRE, reMatchAt_alt_iff, reMatchAt_alt_iff, reMatchAt_alt_iff]
      refine Or.inr (Or.inr (Or.inr ((reMatchAt_tailSlashEnd_iff _ _ _).mpr
        (Or.inr ⟨?_, by omega⟩))))
      have hd : s.data.drop t.length = "node_modules".data := by
        rw [← ht]
        exact List.drop_left t _
      rw [hd]

/-! ## Walk lemmas -/

/-- Substring monotonicity: an occurrence of `w2` contains an occurrence of
any prefix of `w2`. -/
theorem containsB_mono (w1 w2 s : List Char) (hw : w1 <+: w2)
    (h : containsB w2 s = true) : containsB w1 s = true := by
  rw [containsB_iff] at h ⊢
  obtain ⟨i, hi, hp⟩ := h
  exact ⟨i, hi, hw.trans hp⟩

theorem startsWithB_mono (w1 w2 s : List Char) (hw : w1 <+: w2)
    (h : startsWithB w2 s = true) : startsWithB w1 s = true := by
  rw [startsWithB_iff] at h ⊢
  exact hw.trans h

/-- Every header the walk callback emits has already passed the root skip
and the exclusion filter. -/
theorem processEntry_emitted (tmp : List String) (e : WalkEntry) (hd : Header)
    (hpe : processEntry tmp e = .ok (some hd)) :
    hd.name ≠ "." ∧ excludeMatch hd.name = false := by
  unfold processEntry at hpe
  by_cases h1 : (if e.relSegs.isEmpty then "." else joinSlash e.relSegs) = "."
  · rw [if_pos h1] at hpe
    exact absurd hpe (by simp)
  · rw [if_neg h1] at hpe
    by_cases h2 : excludeMatch (if e.relSegs.isEmpty then "." else joinSlash e.relSegs) = true
    · rw [if_pos h2] at hpe
      exact absurd hpe (by simp)
    · rw [if_neg h2] at hpe
      cases hel : entryLink tmp (if e.relSegs.isEmpty then "." else joinSlash e.relSegs)
          e.etype with
      | error msg =>
        rw [hel] at hpe
        simp at hpe
      | ok lnk =>
        rw [hel] at hpe
        simp only [Except.ok.injEq, Option.some.injEq] at hpe
        rw [← hpe]
        exact ⟨h1, Bool.eq_false_iff.mpr h2⟩

/-- Every header in the walk's output stream passed the filters. -/
theorem walk_headers (tmp : List String) (entries : List WalkEntry) :
    ∀ hd ∈ (walk tmp entries).1, hd.name ≠ "." ∧ excludeMatch hd.name = false := by
  induction entries with
  | nil =>
    intro hd hh
    simp [walk] at hh
  | cons e es ih =>
    intro hd hh
    rw [walk] at hh
    cases hpe : processEntry tmp e with
    | error msg =>
      rw [hpe] at hh
      simp at hh
    | ok oh =>
      rw [hpe] at hh
      cases oh with
      | none => exact ih hd hh
      | some h2 =>
        simp only [List.mem_cons] at hh
        rcases hh with rfl | hh
        · exact processEntry_emitted tmp e hd hpe
        · exact ih hd hh

/-- A clean walk of a prefix composes with the walk of the rest. -/
theorem walk_append (tmp : List String) (pre rest : List WalkEntry)
    (hok : (walk tmp pre).2 = none) :
    walk tmp (pre ++ rest) = ((walk tmp pre).1 ++ (walk tmp rest).1, (walk tmp rest).2) := by
  induction pre with
  | nil =>
    simp [walk]
  | cons e es ih =>
    rw [walk] at hok
    rw [List.cons_append, walk]
    cases hpe : processEntry tmp e with
    | error msg =>
      rw [hpe] at hok
      simp at hok
    | ok oh =>
      rw [hpe] at hok
      cases oh with
      | none =>
        rw [ih hok, walk, hpe]
      | some h2 =>
        simp only at hok
        rw [ih hok, walk, hpe]
        simp

/-! ## Patcher lemmas -/

/-- Unfold one step of the in-line `ReplaceAll`. -/
theorem patchLineAux_succ (mc : String) (fuel : Nat) (line : List Char) :
    patchLineAux mc (fuel + 1) line =
      match runMatchStart line with
      | none => line
      | some i =>
        match lastEndOf "assemble".data (line.drop (i + 4)) with
        | none => line
        | some e =>
          line.take i ++ replacementFor mc ((line.drop (i + 4)).take e)
            ++ patchLineAux mc fuel (line.drop (i + 4 + e)) := rfl

/-- A line with no `RUN (.*assemble)` match is left unchanged. -/
theorem patchLine_noMatch (mc : String) (line : List Char)
    (h : runMatchStart line = none) : patchLine mc line = line := by
  rw [patchLine, patchLineAux_succ, h]

/-- The exact rewrite of the line `RUN /usr/libexec/s2i/assemble`: the
cache-mount directive is prepended and the original invocation survives,
indented, on the following (final) line. -/
theorem patchLine_assemble (mc : String) :
    patchLine mc "RUN /usr/libexec/s2i/assemble".data =
      "RUN ".data ++ mc.data ++ " \\\n    /usr/libexec/s2i/assemble".data := by
  have h1 : runMatchStart "RUN /usr/libexec/s2i/assemble".data = some 0 := by decide
  have h2 : lastEndOf "assemble".data
      (("RUN /usr/libexec/s2i/assemble".data).drop (0 + 4)) = some 25 := by decide
  have h3 : patchLineAux mc 29 (("RUN /usr/libexec/s2i/assemble".data).drop (0 + 4 + 25))
      = [] := rfl
  rw [patchLine]
  rw [show ("RUN /usr/libexec/s2i/assemble".data).length + 1 = 29 + 1 from rfl]
  rw [patchLineAux_succ, h1]
  simp only [h2, h3, replacementFor]
  simp only [List.append_nil, List.append_assoc]
  rfl

/-- Appending a newline-free chunk only grows the current line. -/
theorem splitLinesAux_append (l : List Char) (hnl : '\n' ∉ l) (cur : List Char)
    (rest : List Char) :
    splitLinesAux cur (l ++ rest) = splitLinesAux (l.reverse ++ cur) rest := by
  induction l generalizing cur with
  | nil => simp
  | cons c cs ih =>
    have hc : c ≠ '\n' := fun h => hnl (h ▸ List.mem_cons_self c cs)
    rw [List.cons_append, splitLinesAux, if_neg hc, ih (fun h => hnl (List.mem_cons_of_mem c h))]
    simp

/-- Splitting is a left inverse of joining for newline-free lines. -/
theorem splitLines_joinLines (lns : List (List Char)) (hne : lns ≠ [])
    (hnl : ∀ l ∈ lns, '\n' ∉ l) :
    splitLines (joinLines lns) = lns := by
  induction lns with
  | nil => exact absurd rfl hne
  | cons l ls ih =>
    cases ls with
    | nil =>
      rw [joinLines, splitLines]
      have h := splitLinesAux_append l (hnl l (List.mem_cons_self l [])) [] []
      rw [List.append_nil, List.append_nil] at h
      rw [h, splitLinesAux, List.reverse_reverse]
    | cons l2 ls2 =>
      rw [joinLines, splitLines]
      rw [splitLinesAux_append l (hnl l (List.mem_cons_self l (l2 :: ls2))) [] ('\n' :: _)]
      rw [splitLinesAux]
      have ihr := ih (by simp) (fun x hx => hnl x (List.mem_cons_of_mem l hx))
      rw [splitLines] at ihr
      simp [ihr]

/-! ## Claim theorems -/

/-- C2: with runtime `"go"` and no explicit builder image override, the
resolved default builder image is
`registry.final.tools/mirror/ubi8-go-toolset`, hosted on the registry
`registry.final.tools`; every other runtime's default lives under
`registry.access.redhat.com/ubi8`. -/
theorem c2_go_default_builder :
    (∀ f : Func, f.runtime = "go" → f.builderImageOverride = none →
      BuilderImage f = .ok "registry.final.tools/mirror/ubi8-go-toolset") ∧
    DefaultGoBuilder = "registry.final.tools/mirror/ubi8-go-toolset" ∧
    registryOf DefaultGoBuilder = "registry.final.tools" ∧
    (∀ p ∈ DefaultBuilderImages, p.1 ≠ "go" →
      registryOf p.2 = "registry.access.redhat.com" ∧
        startsWithB "registry.access.redhat.com/ubi8/".data p.2.data = true) := by
  refine ⟨?_, rfl, by decide, ?_⟩
  · intro f h1 h2
    unfold BuilderImage buildersImage
    rw [h2, h1]
    rfl
  · intro p hp hne
    fin_cases hp <;> first | (exact absurd rfl hne) | exact ⟨by decide, by decide⟩

/-- C2 witness. -/
theorem c2_witness :
    BuilderImage ⟨"/r", "go", none, "img"⟩ = .ok "registry.final.tools/mirror/ubi8-go-toolset" ∧
    registryOf DefaultPythonBuilder = "registry.access.redhat.com" :=
  ⟨c2_go_default_builder.1 ⟨"/r", "go", none, "img"⟩ rfl rfl,
   (c2_go_default_builder.2.2.2 ("python", DefaultPythonBuilder) (by decide) (by decide)).1⟩

/-- C4 (counterexample): `.env` and `.func` are not anchored at path-segment
boundaries — paths in which these names occur only as a proper substring of
a longer segment still match the pattern. -/
theorem c4_counterexample :
    excludeMatch "foo.envelope" = true ∧ excludeMatch "my.function" = true := by
  constructor <;> decide

/-- C4 (amended): the pattern matches iff `.git` occurs at the start or
after a `/`, `.env` occurs anywhere, `.func` occurs anywhere, or
`node_modules` occurs immediately before a `/` or at the end; only `.git`
is anchored at a segment start and only `node_modules` at a segment end. -/
theorem c4_exclusion_segment_anchoring (s : String) :
    (excludeMatch s = true ↔
      (startsWithB ".git".data s.data = true ∨
        containsB "/.git".data s.data = true ∨
        containsB ".env".data s.data = true ∨
        containsB ".func".data s.data = true ∨
        containsB "node_modules/".data s.data = true ∨
        endsWithB "node_modules".data s.data = true)) ∧
    excludeMatch "a.gitx" = false ∧
    excludeMatch "agit/x" = false ∧
    excludeMatch "xnode_modulesy" = false :=
  ⟨excludeMatch_characterization s, by decide, by decide, by decide⟩

/-- C4 witness. -/
theorem c4_regex_witness :
    excludeMatch "foo/.git/x" = true ∧ excludeMatch "a.gitx" = false :=
  ⟨(c4_exclusion_segment_anchoring "foo/.git/x").1.mpr (Or.inr (Or.inl (by decide))),
   (c4_exclusion_segment_anchoring "x").2.1⟩

/-- C5: the resulting `ScriptsURL` equals the discovered URL exactly when
that URL is non-empty and differs from the engine's default sentinel
`image:///usr/libexec/s2i`; otherwise the field keeps its zero value `""`
(the assembled config never sets it). -/
theorem c5_scripts_url_override (f : Func) (img u : String) :
    ((u ≠ "" ∧ u ≠ "image:///usr/libexec/s2i") →
      (applyScriptsURL (mkConfig f img) u).scriptsURL = u) ∧
    ((u = "" ∨ u = "image:///usr/libexec/s2i") →
      (applyScriptsURL (mkConfig f img) u).scriptsURL = (mkConfig f img).scriptsURL ∧
        (mkConfig f img).scriptsURL = "") := by
  constructor
  · rintro ⟨-, h2⟩
    simp [applyScriptsURL, h2]
  · rintro (rfl | rfl) <;> simp [applyScriptsURL, mkConfig]

/-- C5 witness. -/
theorem c5_witness :
    (applyScriptsURL (mkConfig ⟨"/r", "go", none, "img"⟩ "b") "http://x").scriptsURL
      = "http://x" ∧
    (applyScriptsURL (mkConfig ⟨"/r", "go", none, "img"⟩ "b")
      "image:///usr/libexec/s2i").scriptsURL = "" := by
  constructor
  · exact (c5_scripts_url_override ⟨"/r", "go", none, "img"⟩ "b" "http://x").1
      ⟨by decide, by decide⟩
  · have h := (c5_scripts_url_override ⟨"/r", "go", none, "img"⟩ "b"
      "image:///usr/libexec/s2i").2 (Or.inr rfl)
    exact h.1.trans h.2

/-- C6: with more than one target platform, `Build` fails with the fixed
single-platform error (provided builder-image resolution succeeds, which is
the only step preceding the platform check), and in every case neither the
platform-image resolution, nor the strategy engine, nor the image-build
call is ever invoked. -/
theorem c6_single_platform_only (w : BuildWorld) (f : Func) (platforms : List Platform)
    (hlen : 2 ≤ platforms.length) :
    (∀ img, BuilderImage f = .ok img →
      Build w f platforms = (.error singlePlatformErr, noCalls)) ∧
    (Build w f platforms).2.platformImageCalled = false ∧
    (Build w f platforms).2.engineCalled = false ∧
    (Build w f platforms).2.imageBuildCalled = false := by
  obtain ⟨p1, p2, rest, hps⟩ : ∃ p1 p2 rest, platforms = p1 :: p2 :: rest := by
    match platforms, hlen with
    | p1 :: p2 :: rest, _ => exact ⟨p1, p2, rest, rfl⟩
  subst hps
  constructor
  · intro img himg
    simp [Build, himg]
  · cases hbi : BuilderImage f <;> simp [Build, hbi, noCalls]

/-- C6 witness. -/
theorem c6_witness :
    Build ⟨fun _ _ => .ok "", .ok (), .ok (), .ok ()⟩ ⟨"/r", "go", none, "img"⟩
      [⟨"linux", "amd64"⟩, ⟨"linux", "arm64"⟩] = (.error singlePlatformErr, noCalls) :=
  (c6_single_platform_only ⟨fun _ _ => .ok "", .ok (), .ok (), .ok ()⟩
    ⟨"/r", "go", none, "img"⟩ [⟨"linux", "amd64"⟩, ⟨"linux", "arm64"⟩] (by decide)).1
    "registry.final.tools/mirror/ubi8-go-toolset" rfl

set_option maxRecDepth 40000 in
/-- C7: the cache-mount identifier is the hex encoding of the first 8 bytes
of the SHA-1 digest of the source root path; it is a pure function of that
path (identical paths give identical identifiers); the embedded digest is
genuine SHA-1 (standard test vector); and the two sample distinct paths get
distinct identifiers. -/
theorem c7_cache_id :
    (∀ root : String, cacheId root = hexEncode ((sha1 (utf8Bytes root)).take 8)) ∧
    (∀ r1 r2 : String, r1 = r2 → cacheId r1 = cacheId r2) ∧
    hexEncode (sha1 (utf8Bytes "abc")) = "a9993e364706816aba3e25717850c26c9cd0d89d" ∧
    cacheId "/home/a" ≠ cacheId "/home/b" := by
  refine ⟨fun _ => rfl, fun r1 r2 h => h ▸ rfl, by decide, by decide⟩

/-- C7 witness. -/
theorem c7_witness : cacheId "/home/user/func" = cacheId "/home/user/func" :=
  c7_cache_id.2.1 "/home/user/func" "/home/user/func" rfl

/-- C10: the bridge links exactly when the primary exists and the legacy
does not; the link exists while the build runs and is removed on every exit
path (success, engine failure, panic) — the post-build state equals the
initial one; when both files exist only the precedence warning is emitted;
and a second run starts with no residual link, behaving like the first. -/
theorem c10_ignore_bridge (fs : IgnoreFS) (o o2 : BuildOutcome) :
    ((ignoreBridge fs o).linked = (fs.funcignore && !fs.s2iignore)) ∧
    ((ignoreBridge fs o).linked = true →
      (ignoreBridge fs o).duringBuild.s2iignore = true ∧
        (ignoreBridge fs o).after.s2iignore = false) ∧
    (ignoreBridge fs o).after = fs ∧
    (fs.funcignore = true → fs.s2iignore = true →
      (ignoreBridge fs o).warned = true ∧ (ignoreBridge fs o).linked = false) ∧
    ignoreBridge (ignoreBridge fs o).after o2 = ignoreBridge fs o2 := by
  obtain ⟨f1, s1⟩ := fs
  cases f1 <;> cases s1 <;> cases o <;> cases o2 <;>
    simp [ignoreBridge]

/-- C10 witness. -/
theorem c10_witness :
    (ignoreBridge ⟨true, false⟩ .panicked).duringBuild.s2iignore = true ∧
    (ignoreBridge ⟨true, false⟩ .panicked).after.s2iignore = false ∧
    (ignoreBridge ⟨true, true⟩ .success).warned = true := by
  refine ⟨?_, ?_, ?_⟩
  · exact ((c10_ignore_bridge ⟨true, false⟩ .panicked .success).2.1 (by decide)).1
  · exact ((c10_ignore_bridge ⟨true, false⟩ .panicked .success).2.1 (by decide)).2
  · exact ((c10_ignore_bridge ⟨true, true⟩ .success .success).2.2.2.1 rfl rfl).1

/-- C1 (counterexample): a symbolic link stored with a *relative* target
that resolves outside the build root (`sub/link -> ../../etc/passwd`, which
resolves to `/etc/passwd`, i.e. `../../etc/passwd` relative to the root
`/tmp/build` — it begins with a parent-directory traversal) does **not**
abort the walk: no error reaches the consumer and the link is emitted with
its stored target verbatim. -/
theorem c1_counterexample :
    (walk ["tmp", "build"] [⟨["sub", "link"], .symlink (.rel "../../etc/passwd")⟩]).2
      = none ∧
    (walk ["tmp", "build"] [⟨["sub", "link"], .symlink (.rel "../../etc/passwd")⟩]).1
      = [⟨"sub/link", "../../etc/passwd"⟩] ∧
    startsWithB "../".data (relAbs ["tmp", "build"] ["etc", "passwd"]).data = true := by
  refine ⟨by decide, by decide, by decide⟩

/-- C1 (amended): a symbolic link whose **stored target is absolute** and
resolves, relative to the build root, to a path beginning with a
parent-directory traversal aborts the walk with the path-escape error
naming the link, and the consumer of the stream observes that error; a
symbolic link whose stored target is relative is never checked — it is
emitted with the stored target verbatim, wherever it points. -/
theorem c1_symlink_escape (tmp : List String) (pre suf : List WalkEntry)
    (rs segs : List String) (t : String)
    (hok : (walk tmp pre).2 = none)
    (hne : rs ≠ [])
    (hp : joinSlash rs ≠ ".")
    (hex : excludeMatch (joinSlash rs) = false)
    (hesc : (startsWithB "../".data (relAbs tmp segs).data
      || decide (relAbs tmp segs = "..")) = true) :
    (walk tmp (pre ++ ⟨rs, .symlink (.abs segs)⟩ :: suf)
      = ((walk tmp pre).1,
          some ("link \"" ++ joinSlash rs ++ "\" points outside source root"))) ∧
    walk tmp (pre ++ ⟨rs, .symlink (.rel t)⟩ :: suf)
      = ((walk tmp pre).1 ++ ⟨joinSlash rs, t⟩ :: (walk tmp suf).1, (walk tmp suf).2) := by
  have hre : rs.isEmpty = false := by
    cases rs with
    | nil => exact absurd rfl hne
    | cons a as => rfl
  constructor
  · have hpe : processEntry tmp ⟨rs, .symlink (.abs segs)⟩
        = .error ("link \"" ++ joinSlash rs ++ "\" points outside source root") := by
      simp [processEntry, entryLink, hre, hp, hex, hesc]
    rw [walk_append tmp pre _ hok, walk, hpe]
    simp
  · have hpe : processEntry tmp ⟨rs, .symlink (.rel t)⟩ = .ok (some ⟨joinSlash rs, t⟩) := by
      simp [processEntry, entryLink, hre, hp, hex]
    rw [walk_append tmp pre _ hok, walk, hpe]

/-- C1 witness. -/
theorem c1_witness :
    walk ["tmp", "build"] ([] ++ ⟨["sub", "link"], .symlink (.abs ["etc", "passwd"])⟩ :: [])
      = ((walk ["tmp", "build"] []).1,
          some ("link \"" ++ joinSlash ["sub", "link"] ++ "\" points outside source root")) :=
  (c1_symlink_escape ["tmp", "build"] [] [] ["sub", "link"] ["etc", "passwd"] "x"
    rfl (by decide) (by decide) (by decide) (by decide)).1

/-- C3 (counterexample): the walk emits the header `a.git/config` — a path
that contains the substring `.git/config` — because `.git` there is not at
a segment start, so the exclusion pattern does not match it; the claim's
parenthetical example is therefore false as stated. -/
theorem c3_counterexample :
    (walk ["tmp", "build"] [⟨["a.git"], .dir⟩, ⟨["a.git", "config"], .regular⟩]).1
      = [⟨"a.git", ""⟩, ⟨"a.git/config", ""⟩] ∧
    (walk ["tmp", "build"] [⟨["a.git"], .dir⟩, ⟨["a.git", "config"], .regular⟩]).2 = none ∧
    containsB ".git/config".data "a.git/config".data = true := by
  refine ⟨by decide, by decide, by decide⟩

/-- C3 (amended): no emitted header is the walk root (relative name `"."`)
and none matches the exclusion pattern; consequently no emitted path starts
with `.git/config` or contains `/.git/config` (a segment-anchored `.git`),
and none contains `node_modules/x.js`.  (A path containing `.git/config`
only behind a non-boundary prefix, such as `a.git/config`, can appear.) -/
theorem c3_no_root_no_excluded (tmp : List String) (entries : List WalkEntry) :
    ∀ hd ∈ (walk tmp entries).1,
      hd.name ≠ "." ∧ excludeMatch hd.name = false ∧
      startsWithB ".git/config".data hd.name.data = false ∧
      containsB "/.git/config".data hd.name.data = false ∧
      containsB "node_modules/x.js".data hd.name.data = false := by
  intro hd hmem
  obtain ⟨h1, h2⟩ := walk_headers tmp entries hd hmem
  refine ⟨h1, h2, ?_, ?_, ?_⟩
  · rcases Bool.eq_false_or_eq_true (startsWithB ".git/config".data hd.name.data) with hcb | hcb
    swap
    · exact hcb
    · exfalso
      have hmono := startsWithB_mono ".git".data ".git/config".data hd.name.data (by decide) hcb
      have hm := (excludeMatch_characterization hd.name).mpr (Or.inl hmono)
      rw [h2] at hm
      exact Bool.false_ne_true hm
  · rcases Bool.eq_false_or_eq_true (containsB "/.git/config".data hd.name.data) with hcb | hcb
    swap
    · exact hcb
    · exfalso
      have hmono := containsB_mono "/.git".data "/.git/config".data hd.name.data (by decide) hcb
      have hm := (excludeMatch_characterization hd.name).mpr (Or.inr (Or.inl hmono))
      rw [h2] at hm
      exact Bool.false_ne_true hm
  · rcases Bool.eq_false_or_eq_true (containsB "node_modules/x.js".data hd.name.data) with hcb | hcb
    swap
    · exact hcb
    · exfalso
      have hmono := containsB_mono "node_modules/".data "node_modules/x.js".data hd.name.data
        (by decide) hcb
      have hm := (excludeMatch_characterization hd.name).mpr
        (Or.inr (Or.inr (Or.inr (Or.inr (Or.inl hmono)))))
      rw [h2] at hm
      exact Bool.false_ne_true hm

/-- C3 witness. -/
theorem c3_witness :
    (⟨"src", ""⟩ : Header).name ≠ "." ∧
    excludeMatch (⟨"src", ""⟩ : Header).name = false ∧
    startsWithB ".git/config".data (⟨"src", ""⟩ : Header).name.data = false ∧
    containsB "/.git/config".data (⟨"src", ""⟩ : Header).name.data = false ∧
    containsB "node_modules/x.js".data (⟨"src", ""⟩ : Header).name.data = false :=
  c3_no_root_no_excluded ["tmp", "build"] [⟨["src"], .dir⟩] ⟨"src", ""⟩ (by decide)

/-- C8: patching a build-instructions file rewrites exactly the matching
lines: a line `RUN /usr/libexec/s2i/assemble` becomes the cache-mount
directive (fixed target `/tmp/artifacts/`, fixed uid `1001`, the computed
identifier) with the original assemble invocation preserved unchanged,
indented, as the final line of the rewritten instruction; lines with no
`RUN (.*assemble)` match are left unchanged. -/
theorem c8_cache_mount_patch (root : String) (lns : List (List Char))
    (hne : lns ≠ []) (hnl : ∀ l ∈ lns, '\n' ∉ l) :
    (patchDockerfile root (joinLines lns)
      = joinLines ((splitLines (joinLines lns)).map (patchLine (mountCmdFor root)))) ∧
    splitLines (joinLines lns) = lns ∧
    (∀ l ∈ lns, l = "RUN /usr/libexec/s2i/assemble".data →
      patchLine (mountCmdFor root) l
        = "RUN --mount=type=cache,target=/tmp/artifacts/,uid=1001,id=".data
            ++ (cacheId root).data ++ " \\\n    /usr/libexec/s2i/assemble".data) ∧
    (∀ l ∈ lns, runMatchStart l = none → patchLine (mountCmdFor root) l = l) := by
  refine ⟨rfl, splitLines_joinLines lns hne hnl, ?_, ?_⟩
  · intro l hl hform
    subst hform
    rw [patchLine_assemble]
    rw [show (mountCmdFor root).data
        = "--mount=type=cache,target=/tmp/artifacts/,uid=1001,id=".data
          ++ (cacheId root).data from String.data_append _ _]
    simp [List.append_assoc]
  · intro l hl hnm
    exact patchLine_noMatch (mountCmdFor root) l hnm

/-- C8 witness. -/
theorem c8_witness :
    patchLine (mountCmdFor "/r") "RUN /usr/libexec/s2i/assemble".data
      = "RUN --mount=type=cache,target=/tmp/artifacts/,uid=1001,id=".data
          ++ (cacheId "/r").data ++ " \\\n    /usr/libexec/s2i/assemble".data :=
  (c8_cache_mount_patch "/r" ["FROM x".data, "RUN /usr/libexec/s2i/assemble".data]
    (by decide) (by decide)).2.2.1 "RUN /usr/libexec/s2i/assemble".data (by decide) rfl

/-- C9: the lookup falls back to the registry exactly on a local "not
found"; any other inspection error is returned fatally (and the registry
oracles are never consulted — the result is independent of them, as it also
is in the found-locally case); in the fallback, parse, fetch, and config
errors are each fatal; the label's absence at any stage (locally under the
current schema then the legacy schema, or in the registry-fetched config)
yields `""` with no error, and its presence yields its value. -/
theorem c9_script_url_lookup (reg reg2 : RegistryWorld) (e : String)
    (cl ccl : Option (List (String × String))) :
    (s2iScriptURL (.errOther e) reg = .error (.inspectErr e)) ∧
    (s2iScriptURL (.errOther e) reg = s2iScriptURL (.errOther e) reg2) ∧
    (s2iScriptURL (.found cl ccl) reg = s2iScriptURL (.found cl ccl) reg2) ∧
    (∀ ep, reg.parse = .error ep →
      s2iScriptURL .notFound reg = .error (.parseErr ep)) ∧
    (∀ tag ef, reg.parse = .ok tag → reg.fetch = .error ef →
      s2iScriptURL .notFound reg = .error (.remoteErr ef)) ∧
    (∀ tag ec, reg.parse = .ok tag → reg.fetch = .ok () → reg.config = .error ec →
      s2iScriptURL .notFound reg = .error (.configErr ec)) ∧
    (∀ tag ls u, reg.parse = .ok tag → reg.fetch = .ok () → reg.config = .ok (some ls) →
      assocFind scriptsURLLabel ls = some u → s2iScriptURL .notFound reg = .ok u) ∧
    (∀ tag, reg.parse = .ok tag → reg.fetch = .ok () →
      (reg.config = .ok none ∨
        ∃ ls, reg.config = .ok (some ls) ∧ assocFind scriptsURLLabel ls = none) →
      s2iScriptURL .notFound reg = .ok "") ∧
    (∀ ls u, cl = some ls → assocFind scriptsURLLabel ls = some u →
      s2iScriptURL (.found cl ccl) reg = .ok u) ∧
    ((cl = none ∨ ∃ ls, cl = some ls ∧ assocFind scriptsURLLabel ls = none) →
      (∀ ls2 u, ccl = some ls2 → assocFind scriptsURLLabel ls2 = some u →
        s2iScriptURL (.found cl ccl) reg = .ok u) ∧
      ((ccl = none ∨ ∃ ls2, ccl = some ls2 ∧ assocFind scriptsURLLabel ls2 = none) →
        s2iScriptURL (.found cl ccl) reg = .ok "")) := by
  refine ⟨rfl, rfl, rfl, ?_, ?_, ?_, ?_, ?_, ?_, ?_⟩
  · intro ep hp
    simp [s2iScriptURL, hp]
  · intro tag ef hp hf
    simp [s2iScriptURL, hp, hf]
  · intro tag ec hp hf hc
    simp [s2iScriptURL, hp, hf, hc]
  · intro tag ls u hp hf hc hfind
    simp [s2iScriptURL, hp, hf, hc, hfind]
  · intro tag hp hf hc
    rcases hc with hc | ⟨ls, hc, hfind⟩
    · simp [s2iScriptURL, hp, hf, hc]
    · simp [s2iScriptURL, hp, hf, hc, hfind]
  · intro ls u hcl hfind
    simp [s2iScriptURL, localLabelLookup, hcl, hfind]
  · intro hcl
    constructor
    · intro ls2 u hccl hfind
      rcases hcl with hcl | ⟨ls, hcl, hfind1⟩
      · simp [s2iScriptURL, localLabelLookup, hcl, hccl, hfind]
      · simp [s2iScriptURL, localLabelLookup, hcl, hccl, hfind, hfind1]
    · intro hccl
      rcases hcl with hcl | ⟨ls, hcl, hfind1⟩ <;>
        rcases hccl with hccl | ⟨ls2, hccl, hfind2⟩
      · simp [s2iScriptURL, localLabelLookup, hcl, hccl]
      · simp [s2iScriptURL, localLabelLookup, hcl, hccl, hfind2]
      · simp [s2iScriptURL, localLabelLookup, hcl, hccl, hfind1]
      · simp [s2iScriptURL, localLabelLookup, hcl, hccl, hfind1, hfind2]

/-- C9 witness. -/
theorem c9_witness :
    s2iScriptURL .notFound ⟨.error "bad ref", .ok (), .ok none⟩
      = .error (.parseErr "bad ref") ∧
    s2iScriptURL .notFound
      ⟨.ok true, .ok (), .ok (some [(scriptsURLLabel, "image:///custom")])⟩
      = .ok "image:///custom" ∧
    s2iScriptURL (.found (some []) none) ⟨.ok true, .ok (), .ok none⟩ = .ok "" := by
  refine ⟨?_, ?_, ?_⟩
  · exact (c9_script_url_lookup ⟨.error "bad ref", .ok (), .ok none⟩
      ⟨.error "bad ref", .ok (), .ok none⟩ "e" none none).2.2.2.1 "bad ref" rfl
  · exact (c9_script_url_lookup
      ⟨.ok true, .ok (), .ok (some [(scriptsURLLabel, "image:///custom")])⟩
      ⟨.ok true, .ok (), .ok none⟩ "e" none none).2.2.2.2.2.2.1 true
      [(scriptsURLLabel, "image:///custom")] "image:///custom" rfl rfl rfl (by decide)
  · exact ((c9_script_url_lookup ⟨.ok true, .ok (), .ok none⟩ ⟨.ok true, .ok (), .ok none⟩
      "e" (some []) none).2.2.2.2.2.2.2.2.2 (Or.inr ⟨[], rfl, rfl⟩)).2 (Or.inl rfl)
